import Mathlib

/-!
Verification of the finance-tracker application (src/app.py) against its
natural-language specification.

The program keeps five tables (transactions, subscriptions, cards, goals,
budgets) as pandas data frames loaded from CSV files; every mutation rewrites
the whole table.  We embed the rows of each table as Lean structures, the
numeric (Python float) fields as rationals, and the free-text fields as lists
of characters.  Stored date strings are parsed by `pd.to_datetime` with
`errors="coerce"`; we embed the parse result directly: `Option SDate`, where
`none` stands for an unparseable date string (NaT).

Pandas-specific semantics that the embedding bakes in, with justification:

* `series.str.contains(pat, regex=False, na=False)` is a literal substring
  test; we embed it as an executable substring test `strHasSub` on `List Char`.

* Under `pd.option_context('mode.use_inf_as_na', True)` the values `inf`,
  `-inf` and `NaN` all count as NA.  `Series.clip(0, 1)` records the NA mask
  of its input before clipping and restores NaN at those positions afterwards
  (missing values are never clipped), so `(x / 0).clip(0,1).fillna(0)` is `0`
  for every numerator `x` under that option: `x/0` is `inf`, `-inf` or `NaN`,
  each of which is in the mask and therefore comes out of `clip` as NaN and
  out of `fillna(0)` as `0`.  Likewise `(b / l).fillna(0)` is `0` whenever
  `l = 0`, and is the exact quotient whenever `l` is nonzero (the quotient is
  then finite, hence not NA).  Divisions by nonzero denominators are embedded
  as rational division.
-/

namespace FinTrack

/-- Free text (Python `str`) as a list of characters. -/
abbrev Str := List Char

/-- `strStarts pat s` is true when `pat` is an initial segment of `s`
(the work-horse for the literal substring test below). -/
def strStarts : Str → Str → Bool
  | [], _ => true
  | _ :: _, [] => false
  | p :: ps, c :: cs => p == c && strStarts ps cs

/-- `strHasSub pat s` is true when `pat` occurs in `s` as a contiguous
substring: the embedding of Python `pat in s` and of
`series.str.contains(pat, regex=False)`. -/
def strHasSub (pat : Str) : Str → Bool
  | [] => pat.isEmpty
  | c :: s => strStarts pat (c :: s) || strHasSub pat s

/-- Result of successfully parsing a stored date string: calendar year,
month, day, as produced by `pd.to_datetime` / `datetime.date`. -/
structure SDate where
  year : Nat
  month : Nat
  day : Nat
deriving DecidableEq

/-- One row of the transactions table (columns `id, date, amount, category,
note` of src/app.py).  `date` is the parse of the stored date string, `none`
when the string is unparseable (`pd.to_datetime(..., errors="coerce")`
yields NaT). -/
structure Tx where
  id : Nat
  date : Option SDate
  amount : ℚ
  category : Str
  note : Str
deriving DecidableEq

/-- One row of the subscriptions table (columns `id, name, amount, cadence,
next_charge_date, category`). -/
structure Sub where
  id : Nat
  name : Str
  amount : ℚ
  cadence : Str
  next_charge_date : Option SDate
  category : Str
deriving DecidableEq

/-- One row of the cards table (columns `id, name, limit, balance`). -/
structure Card where
  id : Nat
  name : Str
  limit : ℚ
  balance : ℚ
deriving DecidableEq

/-- One row of the goals table (columns `id, name, target_amount,
target_date, current_saved`).  `target_amount` is `none` when the stored
cell is missing (NaN). -/
structure Goal where
  id : Nat
  name : Str
  target_amount : Option ℚ
  target_date : Option SDate
  current_saved : ℚ
deriving DecidableEq

/-- One row of the budgets table (columns `category, monthly_budget`). -/
structure Budget where
  category : Str
  monthly_budget : ℚ
deriving DecidableEq

/-- Maximum of a list of naturals, `0` on the empty list: the embedding of
`df["id"].max()` on a non-empty integer column. -/
def colMax : List Nat → Nat
  | [] => 0
  | x :: xs => max x (colMax xs)

/-- `next_id` of src/app.py (line 67) for the transactions table:
`int(df["id"].max() + 1)` when the table is non-empty, else `1`. -/
def nextIdTx (txs : List Tx) : Nat :=
  if txs.isEmpty then 1 else colMax (txs.map (·.id)) + 1

/-- `next_id` of src/app.py (line 67) for the cards table. -/
def nextIdCard (cards : List Card) : Nat :=
  if cards.isEmpty then 1 else colMax (cards.map (·.id)) + 1

/-- Does a stored (parsed) date fall in year `y`, month `m`?  An unparseable
date (NaT) compares false in pandas, hence is excluded. -/
def dateMatches (d : Option SDate) (y m : Nat) : Bool :=
  match d with
  | some dd => dd.year == y && dd.month == m
  | none => false

/-- `month_filter` of src/app.py (lines 55-59): keep the transactions whose
parsed date lies in year `y`, month `m`. -/
def monthFilter (txs : List Tx) (y m : Nat) : List Tx :=
  txs.filter (fun t => dateMatches t.date y m)

/-- Dashboard `income` (src/app.py line 386): sum of the positive amounts of
the month's transactions (the empty-frame guard returns 0.0, which the empty
sum also is). -/
def monthIncome (txs : List Tx) (y m : Nat) : ℚ :=
  (((monthFilter txs y m).filter (fun t => decide (0 < t.amount))).map (·.amount)).sum

/-- Dashboard `expense` (src/app.py line 387): negated sum of the negative
amounts of the month's transactions. -/
def monthExpense (txs : List Tx) (y m : Nat) : ℚ :=
  -(((monthFilter txs y m).filter (fun t => decide (t.amount < 0))).map (·.amount)).sum

/-- Dashboard net metric (src/app.py line 391): `income - expense`. -/
def monthNet (txs : List Tx) (y m : Nat) : ℚ :=
  monthIncome txs y m - monthExpense txs y m

/-- Per-card utilization (src/app.py lines 221-222):
`(balance / limit).fillna(0)` under `mode.use_inf_as_na`, i.e. the quotient
when the limit is nonzero and `0` when it is zero (see the header comment). -/
def cardUtil (c : Card) : ℚ :=
  if c.limit = 0 then 0 else c.balance / c.limit

/-- Aggregate utilization (src/app.py line 225):
`sum(balances)/sum(limits)` when `sum(limits) > 0`, else `0`. -/
def totalUtil (cs : List Card) : ℚ :=
  if 0 < (cs.map (·.limit)).sum then (cs.map (·.balance)).sum / (cs.map (·.limit)).sum else 0

/-- Goal progress (src/app.py lines 355-356):
`(current_saved / target_amount).clip(0, 1).fillna(0)` under
`mode.use_inf_as_na`.  A missing target gives a NaN quotient and a zero
target gives `inf`, `-inf` or `NaN`; all of these are NA under the option,
survive `clip` as NaN (clip restores the NA mask) and become `0` by
`fillna(0)`.  A nonzero target gives the finite quotient clipped to [0,1]. -/
def goalProgress (g : Goal) : ℚ :=
  match g.target_amount with
  | none => 0
  | some t => if t = 0 then 0 else min (max (g.current_saved / t) 0) 1

/-- Python `f"{m:02d}"` on a non-negative integer: zero-pad the decimal
rendering to width two. -/
def pad2 (m : Nat) : Str :=
  if m < 10 then '0' :: (Nat.repr m).data else (Nat.repr m).data

/-- Python `f"{y}-{m:02d}"`: the year-month part shared by both marker
formats of src/app.py (lines 182 and 318). -/
def fmtYM (y m : Nat) : Str :=
  (Nat.repr y).data ++ '-' :: pad2 m

/-- Subscription marker (src/app.py line 182):
`"[sub:" + name + ":" + year + "-" + month02 + "]"`. -/
def subMarker (name : Str) (y m : Nat) : Str :=
  ("[sub:".data ++ name ++ ':' :: fmtYM y m) ++ "]".data

/-- Card-payment marker (src/app.py line 318):
`"[ccpay:" + name + ":" + year + "-" + month02 + "]"`. -/
def ccMarker (name : Str) (y m : Nat) : Str :=
  ("[ccpay:".data ++ name ++ ':' :: fmtYM y m) ++ "]".data

/-- Due-selection predicate of the posting block (src/app.py lines 178-179):
the parsed `next_charge_date` falls in today's year and month.  The cadence
column is not consulted. -/
def isDue (today : SDate) (s : Sub) : Bool :=
  match s.next_charge_date with
  | some d => d.year == today.year && d.month == today.month
  | none => false

/-- The `due` frame of src/app.py line 179. -/
def dueSubs (today : SDate) (subs : List Sub) : List Sub :=
  subs.filter (isDue today)

/-- Does some transaction note contain `pat` as a literal substring?
Embeds `not tx[tx["note"].fillna("").str.contains(pat, regex=False,
na=False)].empty` of src/app.py line 184 (a missing note becomes the empty
string, which contains no non-empty pattern; our markers are non-empty). -/
def notePresent (txs : List Tx) (pat : Str) : Bool :=
  txs.any (fun t => strHasSub pat t.note)

/-- The transaction appended for one due subscription (src/app.py lines
186-192): id `next_id` of the current table, date
`date(year, month, min(28, day))`, amount `-abs(amount)`, the
subscription's category, note `name + " " + marker`. -/
def newSubTx (today : SDate) (acc : List Tx) (s : Sub) : Tx :=
  { id := nextIdTx acc
    date := some ⟨today.year, today.month, min 28 today.day⟩
    amount := -|s.amount|
    category := s.category
    note := s.name ++ ' ' :: subMarker s.name today.year today.month }

/-- One iteration of the posting loop (src/app.py lines 181-194) on the
state (transaction table so far, number posted so far): skip when the
marker is already present in some note, otherwise append. -/
def postStep (today : SDate) (p : List Tx × Nat) (s : Sub) : List Tx × Nat :=
  let mk := subMarker s.name today.year today.month
  if notePresent p.1 mk then p else (p.1 ++ [newSubTx today p.1 s], p.2 + 1)

/-- The Recurring Poster (src/app.py lines 176-197): run the posting loop
over the due subscriptions, returning the new transaction table and the
`added` count. -/
def postSubs (today : SDate) (subs : List Sub) (txs : List Tx) : List Tx × Nat :=
  (dueSubs today subs).foldl (postStep today) (txs, 0)

/-- `spent` for one budget row (src/app.py lines 399-403): absolute value of
the summed negative amounts of the month's transactions in that category;
the `.get(category, 0.0)` default coincides with the empty sum. -/
def budgetSpent (mtx : List Tx) (cat : Str) : ℚ :=
  |((mtx.filter (fun t => decide (t.amount < 0) && t.category == cat)).map (·.amount)).sum|

/-- `pct` for one budget row (src/app.py line 404):
`min(spent/limit, 1.0)` when the limit is positive, else `0`. -/
def budgetPct (spent limit : ℚ) : ℚ :=
  if 0 < limit then min (spent / limit) 1 else 0

/-- The over-budget warning of src/app.py lines 407-408: emitted exactly
when `limit > 0 and spent > limit`, carrying the overage `spent - limit`. -/
def budgetWarning (spent limit : ℚ) : Option ℚ :=
  if 0 < limit ∧ limit < spent then some (spent - limit) else none

/-- Advice tips of the dashboard (src/app.py lines 410-432), as tags; the
over-budget tag carries the list of offending categories joined into the
message text. -/
inductive Tip
  | overspend
  | utilization
  | subCount
  | overBudget (cats : List Str)
deriving DecidableEq

/-- The `over` list of src/app.py lines 420-424: categories of budget rows
whose month spending strictly exceeds their monthly budget. -/
def overCategories (budgets : List Budget) (mtx : List Tx) : List Str :=
  (budgets.filter (fun b => decide (b.monthly_budget < budgetSpent mtx b.category))).map (·.category)

/-- The `tips` list of src/app.py lines 412-426, in program order:
1. overspending: `expense > income and income > 0`;
2. utilization: cards non-empty and
   `sum(balances)/max(sum(limits), 1) > 0.3`;
3. subscriptions: subscriptions non-empty and at least 3 of them;
4. over budget: budgets non-empty, the month has transactions, and the
   `over` list is non-empty. -/
def adviceTips (txs : List Tx) (cards : List Card) (subs : List Sub)
    (budgets : List Budget) (y m : Nat) : List Tip :=
  let mtx := monthFilter txs y m
  let oc := overCategories budgets mtx
  (if monthIncome txs y m < monthExpense txs y m ∧ 0 < monthIncome txs y m
    then [Tip.overspend] else []) ++
  (if cards ≠ [] ∧ 3/10 < (cards.map (·.balance)).sum / max ((cards.map (·.limit)).sum) 1
    then [Tip.utilization] else []) ++
  (if subs ≠ [] ∧ 3 ≤ subs.length then [Tip.subCount] else []) ++
  (if budgets ≠ [] ∧ mtx ≠ [] ∧ oc ≠ [] then [Tip.overBudget oc] else [])

/-- Python `str.strip()`: drop whitespace from both ends. -/
def pyStrip (s : Str) : Str :=
  ((s.dropWhile Char.isWhitespace).reverse.dropWhile Char.isWhitespace).reverse

/-- Look up the selected card row (`cards[cards["id"] == choice].iloc[0]`,
src/app.py line 293): first row with the given id. -/
def findCard (cards : List Card) (cid : Nat) : Option Card :=
  cards.find? (fun c => c.id == cid)

/-- The "Apply payment" block (src/app.py lines 311-330): clamp the selected
card's balance at zero, write it back to every row with the selected id, and
append a Bills transaction for the outflow whose note carries the `ccpay`
marker and the optional free-text note, stripped.  The impossible branch
(no row with the selected id; the id comes from a select box over the
table) leaves the state unchanged. -/
def applyPayment (cards : List Card) (txs : List Tx) (cid : Nat) (p : ℚ)
    (payDate : SDate) (pnote : Str) : List Card × List Tx :=
  match findCard cards cid with
  | none => (cards, txs)
  | some row =>
      let newBal := max (row.balance - p) 0
      let cards' := cards.map (fun c => if c.id == cid then { c with balance := newBal } else c)
      let mk := ccMarker row.name payDate.year payDate.month
      let t : Tx :=
        { id := nextIdTx txs
          date := some payDate
          amount := -|p|
          category := "Bills".data
          note := pyStrip ("CC Payment - ".data ++ row.name ++ ' ' :: (mk ++ ' ' :: pnote)) }
      (cards', txs ++ [t])

/-- Renumber a list of transactions with consecutive ids starting at `n`
(src/app.py line 138 assigns `range(1, len+1)` to the id column). -/
def renumberTx : Nat → List Tx → List Tx
  | _, [] => []
  | n, t :: ts => { t with id := n } :: renumberTx (n + 1) ts

/-- Renumber a list of cards with consecutive ids starting at `n`
(src/app.py line 279). -/
def renumberCard : Nat → List Card → List Card
  | _, [] => []
  | n, c :: cs => { c with id := n } :: renumberCard (n + 1) cs

/-- "Delete transaction" (src/app.py lines 135-139): drop every row with the
selected id, then reassign ids 1..N in table order. -/
def deleteTx (txs : List Tx) (rid : Nat) : List Tx :=
  renumberTx 1 (txs.filter (fun t => t.id != rid))

/-- "Delete this card" (src/app.py lines 276-280): drop every row with the
selected id, then, when rows remain, reassign ids 1..N in table order. -/
def deleteCard (cards : List Card) (cid : Nat) : List Card :=
  let rest := cards.filter (fun c => c.id != cid)
  if rest.isEmpty then rest else renumberCard 1 rest

/-- The non-id columns of a transaction row. -/
def txPayload (t : Tx) : Option SDate × ℚ × Str × Str :=
  (t.date, t.amount, t.category, t.note)

/-- The non-id columns of a card row. -/
def cardPayload (c : Card) : Str × ℚ × ℚ :=
  (c.name, c.limit, c.balance)

/-! ## Helper lemmas about the substring test -/

theorem strStarts_append (pat ext : Str) : strStarts pat (pat ++ ext) = true := by
  induction pat with
  | nil => rfl
  | cons c cs ih => simp [strStarts, ih]

theorem strHasSub_of_starts (pat s : Str) (h : strStarts pat s = true) :
    strHasSub pat s = true := by
  cases s with
  | nil =>
      cases pat with
      | nil => rfl
      | cons p ps => exact absurd h (by simp [strStarts])
  | cons c cs => simp [strHasSub, h]

theorem strHasSub_append_right (x pat y : Str) :
    strHasSub pat (x ++ (pat ++ y)) = true := by
  induction x with
  | nil =>
      rw [List.nil_append]
      exact strHasSub_of_starts _ _ (strStarts_append pat y)
  | cons a as ih =>
      rw [List.cons_append]
      simp only [strHasSub, ih, Bool.or_true]

theorem strHasSub_suffix (x pat : Str) : strHasSub pat (x ++ pat) = true := by
  have h := strHasSub_append_right x pat []
  simpa using h

/-- The note written by the posting loop contains its own marker. -/
theorem strHasSub_name_marker (name mk : Str) :
    strHasSub mk (name ++ ' ' :: mk) = true := by
  have h : name ++ ' ' :: mk = (name ++ [' ']) ++ mk := by simp
  rw [h]
  exact strHasSub_suffix _ _

theorem notePresent_append (a b : List Tx) (pat : Str) :
    notePresent (a ++ b) pat = (notePresent a pat || notePresent b pat) := by
  simp [notePresent, List.any_append]

/-! ## Helper lemmas about the posting loop -/

/-- The posting loop only ever appends to the transaction table and adds to
the counter. -/
theorem postLoop_extends (today : SDate) (l : List Sub) :
    ∀ p : List Tx × Nat, ∃ ext k,
      l.foldl (postStep today) p = (p.1 ++ ext, p.2 + k) := by
  induction l with
  | nil => intro p; exact ⟨[], 0, by simp⟩
  | cons s l ih =>
      intro p
      rw [List.foldl_cons]
      rcases ih (postStep today p s) with ⟨ext, k, hk⟩
      by_cases h : notePresent p.1 (subMarker s.name today.year today.month) = true
      · refine ⟨ext, k, ?_⟩
        rw [hk]
        simp [postStep, h]
      · refine ⟨newSubTx today p.1 s :: ext, k + 1, ?_⟩
        rw [hk]
        simp only [postStep, Bool.not_eq_true] at h ⊢
        rw [h]
        simp [List.append_assoc]
        omega

/-- Once a pattern occurs in some note, it still occurs after more posting. -/
theorem notePresent_postLoop (today : SDate) (l : List Sub) (p : List Tx × Nat)
    (pat : Str) (h : notePresent p.1 pat = true) :
    notePresent (l.foldl (postStep today) p).1 pat = true := by
  rcases postLoop_extends today l p with ⟨ext, k, hk⟩
  rw [hk]
  simp [notePresent_append, h]

/-- After the posting loop has processed a subscription, its marker occurs
in some transaction note. -/
theorem postLoop_marks (today : SDate) (l : List Sub) :
    ∀ p : List Tx × Nat, ∀ s ∈ l,
      notePresent (l.foldl (postStep today) p).1
        (subMarker s.name today.year today.month) = true := by
  induction l with
  | nil => intro p s hs; cases hs
  | cons s0 l ih =>
      intro p s hs
      rw [List.foldl_cons]
      rcases List.mem_cons.mp hs with heq | hmem
      · subst heq
        apply notePresent_postLoop
        by_cases h : notePresent p.1 (subMarker s.name today.year today.month) = true
        · simp [postStep, h]
        · simp only [Bool.not_eq_true] at h
          simp only [postStep, h, Bool.false_eq_true, if_false]
          rw [notePresent_append]
          have hnote : strHasSub (subMarker s.name today.year today.month)
              (newSubTx today p.1 s).note = true :=
            strHasSub_name_marker s.name _
          simp [notePresent, hnote]
      · exact ih (postStep today p s0) s hmem

/-- When every subscription in the list already has its marker present, the
posting loop is the identity (it skips every row and counts nothing). -/
theorem postLoop_skips (today : SDate) (l : List Sub) :
    ∀ p : List Tx × Nat,
      (∀ s ∈ l, notePresent p.1 (subMarker s.name today.year today.month) = true) →
      l.foldl (postStep today) p = p := by
  induction l with
  | nil => intro p _; rfl
  | cons s0 l ih =>
      intro p h
      rw [List.foldl_cons]
      have h0 := h s0 (List.mem_cons_self s0 l)
      have hstep : postStep today p s0 = p := by simp [postStep, h0]
      rw [hstep]
      exact ih p (fun s hs => h s (List.mem_cons_of_mem s0 hs))

/-- C1.  Running the Recurring Poster twice in succession on the same
subscription table and "today" produces the very transaction table of the
first run, and the second run posts `0` charges: after the first run every
due subscription's marker `[sub:<name>:<year>-<month:02>]` occurs literally
in some transaction note, so the duplicate check skips it. -/
theorem recurring_poster_idempotent (today : SDate) (subs : List Sub) (txs : List Tx) :
    postSubs today subs (postSubs today subs txs).1 = ((postSubs today subs txs).1, 0) := by
  apply postLoop_skips
  intro s hs
  exact postLoop_marks today (dueSubs today subs) (txs, 0) s hs

/-- C10.  Two distinct subscriptions with the same name, both due this
month: a single run of the Recurring Poster posts at most one charge for
the pair, because the duplicate marker is keyed only by name and month. -/
theorem same_name_posted_at_most_once (today : SDate) (s1 s2 : Sub) (txs : List Tx)
    (_hne : s1 ≠ s2) (hname : s1.name = s2.name)
    (h1 : isDue today s1 = true) (h2 : isDue today s2 = true) :
    (postSubs today [s1, s2] txs).2 ≤ 1 := by
  have hdue : dueSubs today [s1, s2] = [s1, s2] := by
    simp [dueSubs, List.filter, h1, h2]
  unfold postSubs
  rw [hdue]
  simp only [List.foldl_cons, List.foldl_nil]
  have hmk : subMarker s2.name today.year today.month
      = subMarker s1.name today.year today.month := by rw [hname]
  by_cases h : notePresent txs (subMarker s1.name today.year today.month) = true
  · have hstep1 : postStep today (txs, 0) s1 = (txs, 0) := by simp [postStep, h]
    rw [hstep1]
    have hstep2 : postStep today (txs, 0) s2 = (txs, 0) := by
      simp [postStep, hmk, h]
    rw [hstep2]
    exact Nat.zero_le 1
  · simp only [Bool.not_eq_true] at h
    have hstep1 : postStep today (txs, 0) s1
        = (txs ++ [newSubTx today txs s1], 1) := by
      simp [postStep, h]
    rw [hstep1]
    have hnote : strHasSub (subMarker s1.name today.year today.month)
        (newSubTx today txs s1).note = true :=
      strHasSub_name_marker s1.name _
    have hpres : notePresent (txs ++ [newSubTx today txs s1])
        (subMarker s2.name today.year today.month) = true := by
      rw [hmk, notePresent_append]
      simp [notePresent, hnote]
    simp [postStep, hpres]

/-- C10 witness: two concrete same-name subscriptions due in 2024-03; a
single run on the empty transaction table posts one charge, not two. -/
theorem same_name_posted_at_most_once_witness :
    (postSubs ⟨2024, 3, 15⟩
      [⟨1, "Netflix".data, 1599/100, "monthly".data, some ⟨2024, 3, 1⟩, "Entertainment".data⟩,
       ⟨2, "Netflix".data, 999/100, "monthly".data, some ⟨2024, 3, 20⟩, "Bills".data⟩] []).2 ≤ 1 :=
  same_name_posted_at_most_once ⟨2024, 3, 15⟩ _ _ []
    (by decide) (by decide) (by decide) (by decide)

/-- C2.  A subscription due in the current month whose marker occurs in no
transaction note is posted as exactly one appended transaction with date
`min(28, today's day)` of the current month, amount the negated absolute
subscription amount, the subscription's category, and note
`name + " " + marker`; moreover due-selection is pure month-equality on the
parsed `next_charge_date` and ignores the cadence column entirely. -/
theorem recurring_poster_posts_due (today : SDate) (s : Sub) (txs : List Tx)
    (subs : List Sub)
    (hdue : isDue today s = true)
    (habs : notePresent txs (subMarker s.name today.year today.month) = false) :
    postSubs today [s] txs =
      (txs ++ [{ id := nextIdTx txs
                 date := some ⟨today.year, today.month, min 28 today.day⟩
                 amount := -|s.amount|
                 category := s.category
                 note := s.name ++ ' ' :: subMarker s.name today.year today.month }], 1) ∧
    (∀ u : Sub, u ∈ dueSubs today subs ↔
      u ∈ subs ∧ ∃ d : SDate, u.next_charge_date = some d ∧
        d.year = today.year ∧ d.month = today.month) ∧
    (∀ c : Str, dueSubs today (subs.map (fun u => { u with cadence := c }))
      = (dueSubs today subs).map (fun u => { u with cadence := c })) := by
  refine ⟨?_, ?_, ?_⟩
  · have hd : dueSubs today [s] = [s] := by simp [dueSubs, List.filter, hdue]
    unfold postSubs
    rw [hd]
    simp only [List.foldl_cons, List.foldl_nil]
    simp [postStep, habs, newSubTx]
  · intro u
    rw [dueSubs, List.mem_filter]
    refine and_congr_right fun _ => ?_
    cases hu : u.next_charge_date with
    | none => simp [isDue, hu]
    | some d =>
        simp only [isDue, hu, Bool.and_eq_true, beq_iff_eq]
        constructor
        · rintro ⟨hy, hm⟩; exact ⟨d, rfl, hy, hm⟩
        · rintro ⟨d', hd', hy, hm⟩
          cases hd'
          exact ⟨hy, hm⟩
  · intro c
    rw [dueSubs, dueSubs, List.filter_map]
    rfl

/-- C2 witness: the spec's Netflix scenario, posted on 2024-03-31 into an
empty transaction table. -/
theorem recurring_poster_posts_due_witness :
    postSubs ⟨2024, 3, 31⟩
      [⟨1, "Netflix".data, 1599/100, "monthly".data, some ⟨2024, 3, 1⟩, "Entertainment".data⟩]
      []
    = ([⟨1, some ⟨2024, 3, 28⟩, -|(1599/100 : ℚ)|, "Entertainment".data,
        "Netflix [sub:Netflix:2024-03]".data⟩], 1) :=
  (recurring_poster_posts_due ⟨2024, 3, 31⟩
      ⟨1, "Netflix".data, 1599/100, "monthly".data, some ⟨2024, 3, 1⟩, "Entertainment".data⟩
      [] [] (by decide) (by rfl)).1

/-! ## Ledger aggregation -/

theorem neg_sum_of_all_neg (l : List ℚ) (h : ∀ x ∈ l, x < 0) :
    -l.sum = (l.map (fun x => |x|)).sum := by
  induction l with
  | nil => simp
  | cons a as ih =>
      have ha := h a (List.mem_cons_self a as)
      have has : ∀ x ∈ as, x < 0 := fun x hx => h x (List.mem_cons_of_mem a hx)
      simp only [List.sum_cons, List.map_cons, neg_add, abs_of_neg ha, ih has]

/-- C5.  For every transaction table and target month: income is the sum of
the positive amounts dated in that month, expense is the sum of the absolute
values of the negative amounts dated in that month, net is exactly
income − expense, all three vanish on an empty or non-matching selection,
and a transaction whose stored date string does not parse is excluded from
the month selection. -/
theorem ledger_month_spec (txs : List Tx) (y m : Nat) :
    monthIncome txs y m
      = ((txs.filter (fun t => dateMatches t.date y m && decide (0 < t.amount))).map
          (·.amount)).sum ∧
    monthExpense txs y m
      = ((txs.filter (fun t => dateMatches t.date y m && decide (t.amount < 0))).map
          (fun t => |t.amount|)).sum ∧
    monthNet txs y m = monthIncome txs y m - monthExpense txs y m ∧
    (monthFilter txs y m = [] →
      monthIncome txs y m = 0 ∧ monthExpense txs y m = 0 ∧ monthNet txs y m = 0) ∧
    (∀ t ∈ txs, t.date = none → t ∉ monthFilter txs y m) := by
  refine ⟨?_, ?_, rfl, ?_, ?_⟩
  · rw [monthIncome, monthFilter, List.filter_filter]
    congr 1
    congr 1
    exact List.filter_congr fun t _ => Bool.and_comm _ _
  · rw [monthExpense, monthFilter, List.filter_filter]
    have hneg : ∀ x ∈ ((txs.filter
        (fun t => decide (t.amount < 0) && dateMatches t.date y m)).map (·.amount)), x < 0 := by
      intro x hx
      rcases List.mem_map.mp hx with ⟨t, ht, hxt⟩
      have := (List.mem_filter.mp ht).2
      have hlt : t.amount < 0 := of_decide_eq_true (Bool.and_elim_left this)
      exact hxt ▸ hlt
    rw [neg_sum_of_all_neg _ hneg, List.map_map]
    have hcomm : txs.filter (fun t => decide (t.amount < 0) && dateMatches t.date y m)
        = txs.filter (fun t => dateMatches t.date y m && decide (t.amount < 0)) :=
      List.filter_congr fun t _ => Bool.and_comm _ _
    rw [hcomm]
    rfl
  · intro h
    have h1 : monthIncome txs y m = 0 := by rw [monthIncome, h]; rfl
    have h2 : monthExpense txs y m = 0 := by rw [monthExpense, h]; simp
    exact ⟨h1, h2, by rw [monthNet, h1, h2]; norm_num⟩
  · intro t _ hnone hmem
    have := (List.mem_filter.mp hmem).2
    rw [hnone] at this
    exact absurd this (by simp [dateMatches])

/-- C5 witness: the empty selection yields zero income, expense and net
(the hypothesis `monthFilter [] 2024 1 = []` holds by computation). -/
theorem ledger_month_spec_witness :
    monthIncome [] 2024 1 = 0 ∧ monthExpense [] 2024 1 = 0 ∧ monthNet [] 2024 1 = 0 :=
  (ledger_month_spec [] 2024 1).2.2.2.1 rfl

/-- The spec's dashboard scenario: a 100 income and a −40 food expense in
2024-01, plus an unparseable-dated row, give income 100, expense 40,
net 60. -/
example :
    monthIncome [⟨1, some ⟨2024, 1, 5⟩, 100, "Income".data, []⟩,
                 ⟨2, some ⟨2024, 1, 10⟩, -40, "Food".data, []⟩,
                 ⟨3, none, -7, "Food".data, []⟩] 2024 1 = 100 ∧
    monthExpense [⟨1, some ⟨2024, 1, 5⟩, 100, "Income".data, []⟩,
                  ⟨2, some ⟨2024, 1, 10⟩, -40, "Food".data, []⟩,
                  ⟨3, none, -7, "Food".data, []⟩] 2024 1 = 40 ∧
    monthNet [⟨1, some ⟨2024, 1, 5⟩, 100, "Income".data, []⟩,
              ⟨2, some ⟨2024, 1, 10⟩, -40, "Food".data, []⟩,
              ⟨3, none, -7, "Food".data, []⟩] 2024 1 = 60 := by
  refine ⟨?_, ?_, ?_⟩ <;>
    norm_num [monthIncome, monthExpense, monthNet, monthFilter, dateMatches, List.filter]

/-! ## Utilization and goal progress -/

/-- C4.  Per-card utilization is `balance/limit` for a positive limit and
`0` for a zero limit; aggregate utilization is `sum(balances)/sum(limits)`
when the limits sum positive and `0` when they sum to zero.  All four are
total rational values (no error, no infinity). -/
theorem card_utilization_spec (c : Card) (cs : List Card) :
    (0 < c.limit → cardUtil c = c.balance / c.limit) ∧
    (c.limit = 0 → cardUtil c = 0) ∧
    (0 < (cs.map (·.limit)).sum →
      totalUtil cs = (cs.map (·.balance)).sum / (cs.map (·.limit)).sum) ∧
    ((cs.map (·.limit)).sum = 0 → totalUtil cs = 0) := by
  refine ⟨fun h => ?_, fun h => ?_, fun h => ?_, fun h => ?_⟩
  · rw [cardUtil, if_neg (ne_of_gt h)]
  · rw [cardUtil, if_pos h]
  · rw [totalUtil, if_pos h]
  · rw [totalUtil, if_neg (by rw [h]; exact lt_irrefl 0)]

/-- C4 witness: a 400/1000 card alone, and a zero-limit card alone. -/
theorem card_utilization_spec_witness :
    cardUtil ⟨1, "Visa".data, 1000, 400⟩ = (400 : ℚ) / 1000 ∧
    cardUtil ⟨2, "Promo".data, 0, 250⟩ = 0 ∧
    totalUtil [⟨1, "Visa".data, 1000, 400⟩] = (400 : ℚ) / 1000 ∧
    totalUtil [⟨2, "Promo".data, 0, 250⟩] = 0 := by
  refine ⟨(card_utilization_spec ⟨1, "Visa".data, 1000, 400⟩ []).1 (by norm_num),
          (card_utilization_spec ⟨2, "Promo".data, 0, 250⟩ []).2.1 rfl,
          ?_, ?_⟩
  · have h := (card_utilization_spec ⟨1, "Visa".data, 1000, 400⟩
      [⟨1, "Visa".data, 1000, 400⟩]).2.2.1 (by norm_num)
    rw [h]; norm_num
  · have h := (card_utilization_spec ⟨2, "Promo".data, 0, 250⟩
      [⟨2, "Promo".data, 0, 250⟩]).2.2.2 (by norm_num)
    rw [h]

/-- C3.  For every goal the displayed progress lies in [0, 1], and a zero or
missing target amount yields progress 0 (under `mode.use_inf_as_na` the
quotient by zero is NA, `clip` preserves NA positions, and `fillna(0)` maps
them to 0; see the header comment). -/
theorem goal_progress_spec (g : Goal) :
    0 ≤ goalProgress g ∧ goalProgress g ≤ 1 ∧
    (g.target_amount = some 0 → goalProgress g = 0) ∧
    (g.target_amount = none → goalProgress g = 0) := by
  cases hT : g.target_amount with
  | none => simp [goalProgress, hT]
  | some t =>
      by_cases ht : t = 0
      · subst ht
        simp [goalProgress, hT]
      · have h1 : goalProgress g = min (max (g.current_saved / t) 0) 1 := by
          simp [goalProgress, hT, ht]
        refine ⟨?_, ?_, fun h0 => ?_, fun hn => ?_⟩
        · rw [h1]; exact le_min (le_max_right _ 0) zero_le_one
        · rw [h1]; exact min_le_right _ 1
        · exact absurd (Option.some.inj h0) ht
        · cases hn

/-- C3 witness: a zero-target goal with money already saved, a missing
target, and an ordinary half-reached goal. -/
theorem goal_progress_spec_witness :
    goalProgress ⟨1, "Fund".data, some 0, none, 50⟩ = 0 ∧
    goalProgress ⟨2, "Trip".data, none, none, 50⟩ = 0 ∧
    (0 ≤ goalProgress ⟨3, "Car".data, some 100, none, 50⟩ ∧
      goalProgress ⟨3, "Car".data, some 100, none, 50⟩ ≤ 1) := by
  refine ⟨(goal_progress_spec ⟨1, "Fund".data, some 0, none, 50⟩).2.2.1 rfl,
          (goal_progress_spec ⟨2, "Trip".data, none, none, 50⟩).2.2.2 rfl,
          (goal_progress_spec ⟨3, "Car".data, some 100, none, 50⟩).1,
          (goal_progress_spec ⟨3, "Car".data, some 100, none, 50⟩).2.1⟩

/-! ## Card payment -/

/-- The payment note keeps its marker through `strip()`: the note starts
with a non-whitespace character, and the marker ends in `]`, so stripping
whitespace from either end cannot reach into the marker. -/
theorem ccNote_keeps_marker (name pnote : Str) (y m : Nat) :
    strHasSub (ccMarker name y m)
      (pyStrip ("CC Payment - ".data ++ name ++ ' ' :: (ccMarker name y m ++ ' ' :: pnote)))
      = true := by
  set mk := ccMarker name y m with hmk
  set E := "CC Payment - ".data ++ name ++ [' '] with hE
  have hsplit : "CC Payment - ".data ++ name ++ ' ' :: (mk ++ ' ' :: pnote)
      = E ++ (mk ++ ' ' :: pnote) := by
    rw [hE]; simp [List.append_assoc]
  rw [pyStrip, hsplit]
  have hEhead : E ++ (mk ++ ' ' :: pnote)
      = 'C' :: ("C Payment - ".data ++ name ++ [' '] ++ (mk ++ ' ' :: pnote)) := by
    rw [hE]; rfl
  have hdropL : (E ++ (mk ++ ' ' :: pnote)).dropWhile Char.isWhitespace
      = E ++ (mk ++ ' ' :: pnote) := by
    rw [hEhead, List.dropWhile_cons]
    simp
  rw [hdropL]
  have hrev : (E ++ (mk ++ ' ' :: pnote)).reverse
      = (pnote.reverse ++ [' ']) ++ (mk.reverse ++ E.reverse) := by
    simp [List.reverse_append, List.reverse_cons, List.append_assoc]
  rw [hrev, List.dropWhile_append]
  have hmkrev : mk.reverse = ']' :: ("[ccpay:".data ++ name ++ ':' :: fmtYM y m).reverse := by
    rw [hmk, ccMarker]
    simp
  have hdropR : (mk.reverse ++ E.reverse).dropWhile Char.isWhitespace
      = mk.reverse ++ E.reverse := by
    rw [hmkrev, List.cons_append, List.dropWhile_cons]
    simp
  by_cases hws : ((pnote.reverse ++ [' ']).dropWhile Char.isWhitespace).isEmpty = true
  · rw [if_pos hws, hdropR]
    rw [List.reverse_append, List.reverse_reverse, List.reverse_reverse]
    exact strHasSub_suffix E mk
  · rw [if_neg hws]
    rw [List.reverse_append, List.reverse_append, List.reverse_reverse, List.reverse_reverse]
    rw [List.append_assoc]
    exact strHasSub_append_right E mk _

/-- C6.  Applying a payment `p ∈ [0, balance]` to the selected card clamps
its balance at `max(balance - p, 0)` (never negative, exactly `0` when
`p ≥ balance`) and appends exactly one transaction with amount `-|p|`,
category `Bills`, and a stripped note that embeds the marker
`[ccpay:<card name>:<year>-<month:02>]` and the optional free-text note. -/
theorem card_payment_spec (cards : List Card) (txs : List Tx) (cid : Nat) (p : ℚ)
    (payDate : SDate) (pnote : Str) (row : Card)
    (hrow : findCard cards cid = some row)
    (_hp0 : 0 ≤ p) (_hpb : p ≤ row.balance) :
    (applyPayment cards txs cid p payDate pnote).1
      = cards.map (fun c =>
          if c.id == cid then { c with balance := max (row.balance - p) 0 } else c) ∧
    0 ≤ max (row.balance - p) 0 ∧
    (row.balance ≤ p → max (row.balance - p) 0 = 0) ∧
    (applyPayment cards txs cid p payDate pnote).2
      = txs ++ [{ id := nextIdTx txs
                  date := some payDate
                  amount := -|p|
                  category := "Bills".data
                  note := pyStrip ("CC Payment - ".data ++ row.name ++ ' ' ::
                    (ccMarker row.name payDate.year payDate.month ++ ' ' :: pnote)) }] ∧
    strHasSub (ccMarker row.name payDate.year payDate.month)
      (pyStrip ("CC Payment - ".data ++ row.name ++ ' ' ::
        (ccMarker row.name payDate.year payDate.month ++ ' ' :: pnote))) = true := by
  refine ⟨?_, le_max_right _ 0, fun h => ?_, ?_, ?_⟩
  · rw [applyPayment, hrow]
  · exact max_eq_right (sub_nonpos.mpr h)
  · rw [applyPayment, hrow]
  · exact ccNote_keeps_marker row.name pnote payDate.year payDate.month

/-- C6 witness: the spec's scenario card (limit 1000, balance 400) paid 400
on 2024-05-02: the clamped balance is well-defined, non-negative, and
exactly zero. -/
theorem card_payment_spec_witness :
    0 ≤ max ((400 : ℚ) - 400) 0 ∧ max ((400 : ℚ) - 400) 0 = 0 :=
  have h := card_payment_spec [⟨1, "Visa".data, 1000, 400⟩] [] 1 400 ⟨2024, 5, 2⟩
    "Credit card payment".data ⟨1, "Visa".data, 1000, 400⟩ rfl (by norm_num) (by norm_num)
  ⟨h.2.1, h.2.2.1 (by norm_num)⟩

/-! ## Budget comparison -/

theorem sum_nonpos_of_all_neg (l : List ℚ) (h : ∀ x ∈ l, x < 0) : l.sum ≤ 0 := by
  induction l with
  | nil => simp
  | cons a as ih =>
      have ha := le_of_lt (h a (List.mem_cons_self a as))
      have has := ih fun x hx => h x (List.mem_cons_of_mem a hx)
      calc (a :: as).sum = a + as.sum := List.sum_cons
        _ ≤ 0 + 0 := add_le_add ha has
        _ = 0 := by norm_num

/-- C8.  For one budget row and a target month: `spent` is the absolute sum
of that category's negative transactions in the month (equivalently the sum
of their absolute values, and `0` when there are none), `pct` is
`min(spent/limit, 1)` for a positive limit and `0` for a zero limit, and
the over-budget warning fires exactly when `limit > 0` and `spent > limit`,
carrying the overage `spent - limit`. -/
theorem budget_row_spec (txs : List Tx) (y m : Nat) (b : Budget) :
    budgetSpent (monthFilter txs y m) b.category
      = (((monthFilter txs y m).filter
          (fun t => decide (t.amount < 0) && t.category == b.category)).map
            (fun t => |t.amount|)).sum ∧
    ((monthFilter txs y m).filter
        (fun t => decide (t.amount < 0) && t.category == b.category) = [] →
      budgetSpent (monthFilter txs y m) b.category = 0) ∧
    (0 < b.monthly_budget →
      budgetPct (budgetSpent (monthFilter txs y m) b.category) b.monthly_budget
        = min (budgetSpent (monthFilter txs y m) b.category / b.monthly_budget) 1) ∧
    (b.monthly_budget = 0 →
      budgetPct (budgetSpent (monthFilter txs y m) b.category) b.monthly_budget = 0) ∧
    (∀ o : ℚ,
      budgetWarning (budgetSpent (monthFilter txs y m) b.category) b.monthly_budget = some o
        ↔ 0 < b.monthly_budget ∧
          b.monthly_budget < budgetSpent (monthFilter txs y m) b.category ∧
          o = budgetSpent (monthFilter txs y m) b.category - b.monthly_budget) := by
  have hneg : ∀ x ∈ (((monthFilter txs y m).filter
      (fun t => decide (t.amount < 0) && t.category == b.category)).map (·.amount)), x < 0 := by
    intro x hx
    rcases List.mem_map.mp hx with ⟨t, ht, hxt⟩
    have hmem := (List.mem_filter.mp ht).2
    exact hxt ▸ of_decide_eq_true (Bool.and_elim_left hmem)
  refine ⟨?_, fun h => ?_, fun h => ?_, fun h => ?_, fun o => ?_⟩
  · rw [budgetSpent,
      abs_of_nonpos (sum_nonpos_of_all_neg _ hneg),
      neg_sum_of_all_neg _ hneg, List.map_map]
    rfl
  · rw [budgetSpent, h]
    simp
  · rw [budgetPct, if_pos h]
  · rw [budgetPct, if_neg (by rw [h]; exact lt_irrefl 0)]
  · rw [budgetWarning]
    by_cases hc : 0 < b.monthly_budget ∧
        b.monthly_budget < budgetSpent (monthFilter txs y m) b.category
    · rw [if_pos hc]
      constructor
      · intro ho
        exact ⟨hc.1, hc.2, (Option.some.inj ho).symm⟩
      · rintro ⟨_, _, rfl⟩
        rfl
    · rw [if_neg hc]
      constructor
      · intro ho; cases ho
      · rintro ⟨h1, h2, _⟩
        exact absurd ⟨h1, h2⟩ hc

/-- C8 witness: a 40-limit Food budget against a month with a single −50
Food transaction. -/
theorem budget_row_spec_witness :
    budgetPct
      (budgetSpent (monthFilter [⟨1, some ⟨2024, 1, 5⟩, -50, "Food".data, []⟩] 2024 1)
        "Food".data) 40
      = min
        (budgetSpent (monthFilter [⟨1, some ⟨2024, 1, 5⟩, -50, "Food".data, []⟩] 2024 1)
          "Food".data / 40) 1 :=
  (budget_row_spec [⟨1, some ⟨2024, 1, 5⟩, -50, "Food".data, []⟩] 2024 1
    ⟨"Food".data, 40⟩).2.2.1 (by norm_num)

/-! ## Deletion, id re-compaction and id assignment -/

theorem le_colMax (l : List Nat) : ∀ y ∈ l, y ≤ colMax l := by
  induction l with
  | nil => intro y hy; cases hy
  | cons x xs ih =>
      intro y hy
      rcases List.mem_cons.mp hy with rfl | hy'
      · exact le_max_left y (colMax xs)
      · exact le_trans (ih y hy') (le_max_right x (colMax xs))

theorem colMax_mem (l : List Nat) (h : l ≠ []) : colMax l ∈ l := by
  induction l with
  | nil => cases h rfl
  | cons x xs ih =>
      cases xs with
      | nil => simp [colMax]
      | cons z zs =>
          have hx : colMax (x :: z :: zs) = max x (colMax (z :: zs)) := rfl
          rcases max_choice x (colMax (z :: zs)) with hm | hm
          · rw [hx, hm]
            exact List.mem_cons_self _ _
          · rw [hx, hm]
            exact List.mem_cons_of_mem x (ih (by simp))

/-- Splitting a list with pairwise-distinct keys at a present key: dropping
the key's row via `filter` removes exactly that one row. -/
theorem filter_ne_of_nodup {α : Type} (f : α → Nat) (l : List α) (v : Nat)
    (hnd : (l.map f).Nodup) (hv : v ∈ l.map f) :
    ∃ pre r post, l = pre ++ r :: post ∧ f r = v ∧ (∀ a ∈ pre ++ post, f a ≠ v) ∧
      l.filter (fun a => f a != v) = pre ++ post := by
  rcases List.mem_map.mp hv with ⟨r, hr, hfr⟩
  rcases List.append_of_mem hr with ⟨pre, post, rfl⟩
  have hmap : (pre.map f ++ f r :: post.map f).Nodup := by
    simpa using hnd
  rcases List.nodup_append.mp hmap with ⟨_, h2, hdisj⟩
  have hpostne := (List.nodup_cons.mp h2).1
  have hpre : ∀ a ∈ pre, f a ≠ v := by
    intro a ha heq
    exact hdisj (List.mem_map_of_mem f ha)
      (heq ▸ hfr ▸ List.mem_cons_self (f r) (post.map f))
  have hpost : ∀ a ∈ post, f a ≠ v := by
    intro a ha heq
    exact hpostne (hfr ▸ heq ▸ List.mem_map_of_mem f ha)
  refine ⟨pre, r, post, rfl, hfr, ?_, ?_⟩
  · intro a ha
    rcases List.mem_append.mp ha with h | h
    · exact hpre a h
    · exact hpost a h
  · rw [List.filter_append, List.filter_cons]
    have hr : (f r != v) = false := by simp [hfr]
    rw [hr]
    simp only [Bool.false_eq_true, if_false]
    rw [List.filter_eq_self.mpr (fun a ha => by simp [hpre a ha]),
      List.filter_eq_self.mpr (fun a ha => by simp [hpost a ha])]

theorem renumberTx_map_id (n : Nat) (l : List Tx) :
    (renumberTx n l).map (·.id) = List.range' n l.length := by
  induction l generalizing n with
  | nil => rfl
  | cons t ts ih => simp [renumberTx, List.range'_succ, ih]

theorem renumberTx_map_payload (n : Nat) (l : List Tx) :
    (renumberTx n l).map txPayload = l.map txPayload := by
  induction l generalizing n with
  | nil => rfl
  | cons t ts ih => simp [renumberTx, ih]; rfl

theorem renumberCard_map_id (n : Nat) (l : List Card) :
    (renumberCard n l).map (·.id) = List.range' n l.length := by
  induction l generalizing n with
  | nil => rfl
  | cons c cs ih => simp [renumberCard, List.range'_succ, ih]

theorem renumberCard_map_payload (n : Nat) (l : List Card) :
    (renumberCard n l).map cardPayload = l.map cardPayload := by
  induction l generalizing n with
  | nil => rfl
  | cons c cs ih => simp [renumberCard, ih]; rfl

/-- C9.  With pairwise-distinct ids, deleting a present id from the
transaction or card table removes exactly that row (payloads of the
survivors are preserved in order) and reassigns the survivors' ids to the
contiguous range 1..N in table order; and the next id assigned on insertion
is one greater than the current maximum id, or 1 on an empty table. -/
theorem delete_reassigns_ids (txs : List Tx) (cards : List Card) (rid cid : Nat)
    (_htx : txs ≠ []) (_hcards : cards ≠ [])
    (hnd1 : (txs.map (·.id)).Nodup) (h1 : rid ∈ txs.map (·.id))
    (hnd2 : (cards.map (·.id)).Nodup) (h2 : cid ∈ cards.map (·.id)) :
    (∃ pre r post, txs = pre ++ r :: post ∧ r.id = rid ∧
      (∀ t ∈ pre ++ post, t.id ≠ rid) ∧
      (deleteTx txs rid).map txPayload = (pre ++ post).map txPayload) ∧
    (deleteTx txs rid).map (·.id) = List.range' 1 (txs.length - 1) ∧
    (∃ pre r post, cards = pre ++ r :: post ∧ r.id = cid ∧
      (∀ c ∈ pre ++ post, c.id ≠ cid) ∧
      (deleteCard cards cid).map cardPayload = (pre ++ post).map cardPayload) ∧
    (deleteCard cards cid).map (·.id) = List.range' 1 (cards.length - 1) ∧
    nextIdTx [] = 1 ∧ nextIdCard [] = 1 ∧
    (∃ t ∈ txs, nextIdTx txs = t.id + 1 ∧ ∀ u ∈ txs, u.id < nextIdTx txs) ∧
    (∃ c ∈ cards, nextIdCard cards = c.id + 1 ∧ ∀ d ∈ cards, d.id < nextIdCard cards) := by
  rcases filter_ne_of_nodup (fun t : Tx => t.id) txs rid hnd1 h1 with
    ⟨pre, r, post, hsplit, hid, hrest, hfilter⟩
  rcases filter_ne_of_nodup (fun c : Card => c.id) cards cid hnd2 h2 with
    ⟨cpre, cr, cpost, hcsplit, hcid, hcrest, hcfilter⟩
  have hlen : txs.length - 1 = (pre ++ post).length := by
    rw [hsplit]; simp
  have hclen : cards.length - 1 = (cpre ++ cpost).length := by
    rw [hcsplit]; simp
  have hdel : deleteTx txs rid = renumberTx 1 (pre ++ post) := by
    rw [deleteTx, hfilter]
  have hcdel : deleteCard cards cid = (if (cpre ++ cpost).isEmpty then cpre ++ cpost
      else renumberCard 1 (cpre ++ cpost)) := by
    rw [deleteCard, hcfilter]
  refine ⟨⟨pre, r, post, hsplit, hid, hrest, ?_⟩, ?_,
    ⟨cpre, cr, cpost, hcsplit, hcid, hcrest, ?_⟩, ?_, rfl, rfl, ?_, ?_⟩
  · rw [hdel, renumberTx_map_payload]
  · rw [hdel, renumberTx_map_id, hlen]
  · rw [hcdel]
    by_cases he : (cpre ++ cpost).isEmpty
    · rw [if_pos he]
    · rw [if_neg he, renumberCard_map_payload]
  · rw [hcdel]
    by_cases he : (cpre ++ cpost).isEmpty
    · rw [if_pos he, hclen]
      rw [List.isEmpty_iff] at he
      rw [he]
      rfl
    · rw [if_neg he, renumberCard_map_id, hclen]
  · have hne : txs.map (·.id) ≠ [] := by
      rw [hsplit]; simp
    have hmem := colMax_mem (txs.map (·.id)) hne
    rcases List.mem_map.mp hmem with ⟨t, ht, hid'⟩
    have hnext : nextIdTx txs = colMax (txs.map (·.id)) + 1 := by
      rw [nextIdTx, if_neg (by rw [hsplit]; simp)]
    refine ⟨t, ht, by rw [hnext, hid'], ?_⟩
    intro u hu
    rw [hnext]
    exact Nat.lt_succ_of_le (le_colMax _ _ (List.mem_map_of_mem _ hu))
  · have hne : cards.map (·.id) ≠ [] := by
      rw [hcsplit]; simp
    have hmem := colMax_mem (cards.map (·.id)) hne
    rcases List.mem_map.mp hmem with ⟨c, hc, hid'⟩
    have hnext : nextIdCard cards = colMax (cards.map (·.id)) + 1 := by
      rw [nextIdCard, if_neg (by rw [hcsplit]; simp)]
    refine ⟨c, hc, by rw [hnext, hid'], ?_⟩
    intro d hd
    rw [hnext]
    exact Nat.lt_succ_of_le (le_colMax _ _ (List.mem_map_of_mem _ hd))

/-- C9 witness: a three-row transaction table and a two-row card table with
distinct ids; delete tx id 1 and card id 2, then the surviving ids are the
contiguous ranges. -/
theorem delete_reassigns_ids_witness :
    (deleteTx [⟨3, none, 5, [], []⟩, ⟨1, none, -3, [], []⟩, ⟨7, none, 2, [], []⟩] 1).map (·.id)
      = List.range' 1
        ([⟨3, none, 5, [], []⟩, ⟨1, none, -3, [], []⟩,
          (⟨7, none, 2, [], []⟩ : Tx)].length - 1) ∧
    (deleteCard [⟨1, "A".data, 10, 2⟩, ⟨2, "B".data, 5, 1⟩] 2).map (·.id)
      = List.range' 1 ([⟨1, "A".data, 10, 2⟩, (⟨2, "B".data, 5, 1⟩ : Card)].length - 1) :=
  have h := delete_reassigns_ids
    [⟨3, none, 5, [], []⟩, ⟨1, none, -3, [], []⟩, ⟨7, none, 2, [], []⟩]
    [⟨1, "A".data, 10, 2⟩, ⟨2, "B".data, 5, 1⟩] 1 2
    (by decide) (by decide) (by decide) (by decide) (by decide) (by decide)
  ⟨h.2.1, h.2.2.2.1⟩

/-! ## Advice tips -/

theorem mem_ite_singleton {c : Prop} [Decidable c] (x y : Tip) :
    (x ∈ if c then [y] else ([] : List Tip)) ↔ c ∧ x = y := by
  by_cases h : c <;> simp [h]

theorem ite_singleton_sublist {c : Prop} [Decidable c] (x : Tip) :
    (if c then [x] else ([] : List Tip)).Sublist [x] := by
  by_cases h : c
  · rw [if_pos h]
  · rw [if_neg h]
    exact List.nil_sublist _

theorem overCategories_ne_nil_iff (budgets : List Budget) (mtx : List Tx) :
    overCategories budgets mtx ≠ [] ↔
      ∃ b ∈ budgets, b.monthly_budget < budgetSpent mtx b.category := by
  rw [overCategories]
  simp [List.filter_eq_nil_iff]

/-- C7 counterexample to the claim as stated: one month transaction of −50
(spending 50 > income 0) and one card with limit 0.5 and balance 0.25
(aggregate utilization 50% > 30%), yet the advice list is empty — the code
additionally requires `income > 0` for the overspending tip and divides by
`max(sum(limits), 1)`, not `sum(limits)`, for the utilization tip. -/
theorem advice_tips_claim_counterexample :
    adviceTips [⟨1, some ⟨2024, 1, 5⟩, -50, "Food".data, []⟩] [⟨1, "Visa".data, 1/2, 1/4⟩]
      [] [] 2024 1 = [] ∧
    monthIncome [⟨1, some ⟨2024, 1, 5⟩, -50, "Food".data, []⟩] 2024 1
      < monthExpense [⟨1, some ⟨2024, 1, 5⟩, -50, "Food".data, []⟩] 2024 1 ∧
    3/10 < totalUtil [⟨1, "Visa".data, 1/2, 1/4⟩] := by
  refine ⟨?_, ?_, ?_⟩
  · norm_num [adviceTips, monthIncome, monthExpense, monthFilter, dateMatches, List.filter,
      overCategories, max_def]
  · norm_num [monthIncome, monthExpense, monthFilter, dateMatches, List.filter]
  · norm_num [totalUtil]

/-- C7 (amended).  The advice list contains the overspending tip iff
spending exceeds income AND income is positive; the utilization tip iff the
card table is non-empty and `sum(balances)/max(sum(limits), 1) > 0.3`; the
subscription tip iff there are at least 3 subscriptions; the over-budget
tip iff the budget table is non-empty, the month has transactions, and some
budget category's month spending exceeds its monthly budget.  The tips
always appear in the fixed program order (overspending, utilization,
subscription count, over-budget). -/
theorem advice_tips_spec (txs : List Tx) (cards : List Card) (subs : List Sub)
    (budgets : List Budget) (y m : Nat) :
    (Tip.overspend ∈ adviceTips txs cards subs budgets y m ↔
      monthIncome txs y m < monthExpense txs y m ∧ 0 < monthIncome txs y m) ∧
    (Tip.utilization ∈ adviceTips txs cards subs budgets y m ↔
      cards ≠ [] ∧
        3/10 < (cards.map (·.balance)).sum / max ((cards.map (·.limit)).sum) 1) ∧
    (Tip.subCount ∈ adviceTips txs cards subs budgets y m ↔ 3 ≤ subs.length) ∧
    ((∃ oc, Tip.overBudget oc ∈ adviceTips txs cards subs budgets y m) ↔
      budgets ≠ [] ∧ monthFilter txs y m ≠ [] ∧
        ∃ b ∈ budgets, b.monthly_budget < budgetSpent (monthFilter txs y m) b.category) ∧
    (adviceTips txs cards subs budgets y m).Sublist
      [Tip.overspend, Tip.utilization, Tip.subCount,
       Tip.overBudget (overCategories budgets (monthFilter txs y m))] := by
  refine ⟨?_, ?_, ?_, ?_, ?_⟩
  · simp [adviceTips, List.mem_append, mem_ite_singleton]
  · simp [adviceTips, List.mem_append, mem_ite_singleton]
  · simp only [adviceTips, List.mem_append, mem_ite_singleton]
    constructor
    · rintro (((⟨_, h⟩ | ⟨⟨_, _⟩, h⟩) | ⟨⟨_, h3⟩, _⟩) | ⟨_, h⟩)
      · cases h
      · cases h
      · exact h3
      · cases h
    · intro h
      have hne : subs ≠ [] := by
        intro he
        rw [he] at h
        exact absurd h (by norm_num)
      exact Or.inl (Or.inr ⟨⟨hne, h⟩, trivial⟩)
  · simp only [adviceTips, List.mem_append, mem_ite_singleton]
    constructor
    · rintro ⟨oc, ((⟨_, h⟩ | ⟨⟨_, _⟩, h⟩) | ⟨⟨_, _⟩, h⟩) | ⟨⟨hb, hm', hoc⟩, _⟩⟩
      · cases h
      · cases h
      · cases h
      · exact ⟨hb, hm', (overCategories_ne_nil_iff budgets _).mp hoc⟩
    · rintro ⟨hb, hm', hex⟩
      exact ⟨overCategories budgets (monthFilter txs y m),
        Or.inr ⟨⟨hb, hm', (overCategories_ne_nil_iff budgets _).mpr hex⟩, rfl⟩⟩
  · simp only [adviceTips]
    exact List.Sublist.append
      (List.Sublist.append
        (List.Sublist.append (ite_singleton_sublist _) (ite_singleton_sublist _))
        (ite_singleton_sublist _))
      (ite_singleton_sublist _)

end FinTrack
